import Mathlib

/-!
Shallow embedding of the Group_115 RISC-V toolchain:
`Simulator.py` (decoder, register file, memory, executors) and
`assembler.py` (instruction encoders, two-pass label resolution).

Translation conventions. Python works on unbounded integers, so the
decoder values (always non-negative there) are modelled with `Nat` and
register or memory values with `Int`.  Bit operations on such integers
are translated to the equivalent arithmetic:
`x >> k` becomes `x / 2 ^ k`, `x & (2 ^ k - 1)` becomes `x % 2 ^ k`,
a truth test `x & (1 <<< k)` becomes `x / 2 ^ k % 2 = 1`, and
`x |= m` where the set bits of `x` and `m` are disjoint becomes
`x + m` (the deviating cases are noted where they occur).
-/

/-- Decoded instruction: the dictionary returned by
`decode_instruction` in Simulator.py, one constructor per value of its
`type` key; `unknown` carries the raw input word. -/
inductive Instr where
  | Rtype (op : String) (rd rs1 rs2 : Nat)
  | Itype (op : String) (rd rs1 : Nat) (imm : Nat)
  | Stype (op : String) (rs1 rs2 : Nat) (imm : Nat)
  | Btype (op : String) (rs1 rs2 : Nat) (imm : Nat)
  | Jtype (op : String) (rd : Nat) (imm : Nat)
  | unknown (raw : Nat)
  deriving DecidableEq

/-- Simulator.py: `opcode = instr_int & 0x7F`. -/
def opcode_of (w : Nat) : Nat := w % 128

/-- Simulator.py: `rd = (instr_int >> 7) & 0x1F`. -/
def rd_of (w : Nat) : Nat := w / 2 ^ 7 % 32

/-- Simulator.py: `funct3 = (instr_int >> 12) & 0x7`. -/
def funct3_of (w : Nat) : Nat := w / 2 ^ 12 % 8

/-- Simulator.py: `rs1 = (instr_int >> 15) & 0x1F`. -/
def rs1_of (w : Nat) : Nat := w / 2 ^ 15 % 32

/-- Simulator.py: `rs2 = (instr_int >> 20) & 0x1F`. -/
def rs2_of (w : Nat) : Nat := w / 2 ^ 20 % 32

/-- Simulator.py: `funct7 = (instr_int >> 25) & 0x7F` (R-type arm only). -/
def funct7_of (w : Nat) : Nat := w / 2 ^ 25 % 128

/-- Simulator.py `decode_instruction`, lines 93-176, applied to the
integer value of the binary string (`instr_int = int(binary_instruction, 2)`).
The immediate computations reproduce the source exactly; note that the
source attempts sign extension with `imm |= 0xFFFFF000` (and the analogous
masks for S/B/J), which on a Python unbounded non-negative int yields a
large positive value, never a negative one.  For the I/S/B masks the set
bits are disjoint from the already-masked `imm`, so the `or` is an
addition; for the J-type mask `0xFFF00000` bit 20 overlaps the tested
bit, so `imm | 0xFFF00000 = imm % 2 ^ 20 + 0xFFF00000` there
(see sign_mask_21).

The shared I/S-type immediate adjustment is
`if imm & 0x800: imm |= 0xFFFFF000 else imm &= 0xFFF`: -/
def sign_mask_12 (imm : Nat) : Nat :=
  if imm / 2048 % 2 = 1 then imm + 4294963200 else imm % 4096

/-- Simulator.py B-type immediate adjustment:
`if imm & 0x1000: imm |= 0xFFFFE000 else imm &= 0x1FFF`. -/
def sign_mask_13 (imm : Nat) : Nat :=
  if imm / 4096 % 2 = 1 then imm + 4294959104 else imm % 8192

/-- Simulator.py J-type immediate adjustment:
`if imm & 0x100000: imm |= 0xFFF00000 else imm &= 0xFFFFF`; the mask
overlaps the tested bit 20, so the `or` keeps the low 20 bits and sets
bits 20-31. -/
def sign_mask_21 (imm : Nat) : Nat :=
  if imm / 2 ^ 20 % 2 = 1 then imm % 2 ^ 20 + 4293918720 else imm % 2 ^ 20

def decode_instruction (w : Nat) : Instr :=
  if opcode_of w = 51 then
    -- 0b0110011, R-type
    if funct3_of w = 0 ∧ funct7_of w = 0 then .Rtype "add" (rd_of w) (rs1_of w) (rs2_of w)
    else if funct3_of w = 0 ∧ funct7_of w = 32 then .Rtype "sub" (rd_of w) (rs1_of w) (rs2_of w)
    else if funct3_of w = 5 ∧ funct7_of w = 0 then .Rtype "srl" (rd_of w) (rs1_of w) (rs2_of w)
    else if funct3_of w = 7 ∧ funct7_of w = 0 then .Rtype "and" (rd_of w) (rs1_of w) (rs2_of w)
    else if funct3_of w = 6 ∧ funct7_of w = 0 then .Rtype "or" (rd_of w) (rs1_of w) (rs2_of w)
    else if funct3_of w = 2 ∧ funct7_of w = 0 then .Rtype "slt" (rd_of w) (rs1_of w) (rs2_of w)
    else .unknown w
  else if opcode_of w = 19 then
    -- 0b0010011, I-type (immediate): imm = (instr_int >> 20) & 0xFFF
    if funct3_of w = 0 then .Itype "addi" (rd_of w) (rs1_of w) (sign_mask_12 (w / 2 ^ 20 % 4096))
    else .unknown w
  else if opcode_of w = 3 then
    -- 0b0000011, I-type (load)
    if funct3_of w = 2 then .Itype "lw" (rd_of w) (rs1_of w) (sign_mask_12 (w / 2 ^ 20 % 4096))
    else .unknown w
  else if opcode_of w = 35 then
    -- 0b0100011, S-type: imm = (imm_hi << 5) | imm_lo
    if funct3_of w = 2 then
      .Stype "sw" (rs1_of w) (rs2_of w)
        (sign_mask_12 ((w / 2 ^ 25 % 128) * 32 + w / 2 ^ 7 % 32))
    else .unknown w
  else if opcode_of w = 99 then
    -- 0b1100011, B-type: imm = (imm_12 << 12) | (imm_11 << 11) | (imm_10_5 << 5) | (imm_4_1 << 1)
    if funct3_of w = 0 then
      .Btype "beq" (rs1_of w) (rs2_of w)
        (sign_mask_13 ((w / 2 ^ 31 % 2) * 4096 + (w / 2 ^ 7 % 2) * 2048
          + (w / 2 ^ 25 % 64) * 32 + (w / 2 ^ 8 % 16) * 2))
    else if funct3_of w = 1 then
      .Btype "bne" (rs1_of w) (rs2_of w)
        (sign_mask_13 ((w / 2 ^ 31 % 2) * 4096 + (w / 2 ^ 7 % 2) * 2048
          + (w / 2 ^ 25 % 64) * 32 + (w / 2 ^ 8 % 16) * 2))
    else if funct3_of w = 4 then
      .Btype "blt" (rs1_of w) (rs2_of w)
        (sign_mask_13 ((w / 2 ^ 31 % 2) * 4096 + (w / 2 ^ 7 % 2) * 2048
          + (w / 2 ^ 25 % 64) * 32 + (w / 2 ^ 8 % 16) * 2))
    else .unknown w
  else if opcode_of w = 111 then
    -- 0b1101111, J-type: imm = (imm_20 << 20) | (imm_19_12 << 12) | (imm_11 << 11) | (imm_10_1 << 1)
    .Jtype "jal" (rd_of w)
      (sign_mask_21 ((w / 2 ^ 31 % 2) * 2 ^ 20 + (w / 2 ^ 12 % 256) * 2 ^ 12
        + (w / 2 ^ 20 % 2) * 2 ^ 11 + (w / 2 ^ 21 % 1024) * 2))
  else if opcode_of w = 103 ∧ funct3_of w = 0 then
    -- 0b1100111, I-type (jalr)
    .Itype "jalr" (rd_of w) (rs1_of w) (sign_mask_12 (w / 2 ^ 20 % 4096))
  else .unknown w

/-- Simulator.py register file: dictionary with a `values` list of 32
integers and a `pc` integer. -/
structure Registers where
  values : List Int
  pc : Int
  deriving DecidableEq

/-- Simulator.py `init_registers`: 32 zero slots with slot 2 set to 380
and pc 0. -/
def init_registers : Registers :=
  { values := (List.replicate 32 (0 : Int)).set 2 380, pc := 0 }

/-- Simulator.py `read_register`: the slot value for indices below 32,
otherwise 0. -/
def read_register (regs : Registers) (reg_num : Nat) : Int :=
  if reg_num < 32 then regs.values.getD reg_num 0 else 0

/-- Simulator.py `write_register`: for indices 1..31 the stored value is
`value & 0xFFFFFFFF`, then `value |= ~0xFFFFFFFF` when bit 31 is set.
On Python unbounded integers the mask is `value % 2 ^ 32` and, for a
value in `[0, 2 ^ 32)` with bit 31 set, the `or` with `~0xFFFFFFFF`
(which is `-2 ^ 32`) subtracts `2 ^ 32`.  Any other index (register 0
included) leaves the register file untouched. -/
def write_register (regs : Registers) (reg_num : Nat) (value : Int) : Registers :=
  if 1 ≤ reg_num ∧ reg_num < 32 then
    let v := value % 4294967296
    let v2 := if v / 2147483648 % 2 = 1 then v - 4294967296 else v
    { regs with values := regs.values.set reg_num v2 }
  else regs

/-- Simulator.py memory: a dictionary from address to stored byte,
modelled as a partial map. -/
def Memory := Int → Option Int

/-- Simulator.py `init_memory`: an empty dictionary (the base address
argument is unused in the source). -/
def init_memory (_base_addr : Int) : Memory := fun _ => none

/-- Simulator.py `read_byte_memory`: 0 for an absent address, otherwise
the stored value masked to a byte. -/
def read_byte_memory (memory : Memory) (addr : Int) : Int :=
  match memory addr with
  | none => 0
  | some v => v % 256

/-- Simulator.py `write_byte_memory`: stores `value & 0xFF` at `addr`. -/
def write_byte_memory (memory : Memory) (addr : Int) (value : Int) : Memory :=
  fun x => if x = addr then some (value % 256) else memory x

/-- Simulator.py `read_word_memory`: combines four bytes little-endian;
the source accumulates with `value |= byte << (i * 8)` over disjoint bit
ranges, which is the sum below. -/
def read_word_memory (memory : Memory) (addr : Int) : Int :=
  (List.range 4).foldl
    (fun value (i : Nat) => value + read_byte_memory memory (addr + i) * 2 ^ (i * 8)) 0

/-- Simulator.py `write_word_memory`: writes the four bytes
`(value >> (i * 8)) & 0xFF` at `addr + i` for i = 0..3. -/
def write_word_memory (memory : Memory) (addr : Int) (value : Int) : Memory :=
  (List.range 4).foldl
    (fun mem (i : Nat) => write_byte_memory mem (addr + i) (value / 2 ^ (i * 8) % 256)) memory

/-- Simulator.py `execute_r_type`: computes the result for the six
register-register operations and writes it through `write_register`.
The `srl` case is `(rs1_val & 0xFFFFFFFF) >> (rs2_val & 0x1F)`; the
`or` / `and` cases are Python bitwise or / and on integers. -/
def execute_r_type (op : String) (rd rs1 rs2 : Nat) (regs : Registers) : Registers :=
  let rs1_val := regs.values.getD rs1 0
  let rs2_val := regs.values.getD rs2 0
  let result : Int :=
    if op = "add" then rs1_val + rs2_val
    else if op = "sub" then rs1_val - rs2_val
    else if op = "slt" then (if rs1_val < rs2_val then 1 else 0)
    else if op = "srl" then rs1_val % 4294967296 / 2 ^ (rs2_val % 32).toNat
    else if op = "or" then Int.lor rs1_val rs2_val
    else if op = "and" then Int.land rs1_val rs2_val
    else 0
  write_register regs rd result

/-- Simulator.py `execute_i_type`: returns the updated register file and
the explicit next pc when the source returns one (`jalr`), `none` when
the source returns `None` (`addi`, `lw`, unhandled op).  The `jalr`
target is `(rs1_val + imm) & ~1`, i.e. the sum with bit 0 cleared, which
for Python integers is the sum minus its parity bit; when the target
equals the current pc the source only prints a warning and returns
`pc + 4` without writing any register. -/
def execute_i_type (op : String) (rd rs1 : Nat) (imm : Nat) (regs : Registers)
    (memory : Memory) (pc : Int) : Registers × Option Int :=
  let rs1_val := regs.values.getD rs1 0
  if op = "addi" then (write_register regs rd (rs1_val + imm), none)
  else if op = "lw" then
    (write_register regs rd (read_word_memory memory (rs1_val + imm)), none)
  else if op = "jalr" then
    let target := rs1_val + imm - (rs1_val + imm) % 2
    if target = pc then (regs, some (pc + 4))
    else (write_register regs rd (pc + 4), some target)
  else (regs, none)

/-- Simulator.py `execute_s_type`: for `sw`, stores rs2 as a word at
`rs1_val + imm`. -/
def execute_s_type (op : String) (rs1 rs2 : Nat) (imm : Nat) (regs : Registers)
    (memory : Memory) : Memory :=
  let rs1_val := regs.values.getD rs1 0
  let rs2_val := regs.values.getD rs2 0
  let addr := rs1_val + imm
  if op = "sw" then write_word_memory memory addr rs2_val else memory

/-- Simulator.py `execute_b_type`: returns the next pc; `pc + imm` when
the comparison holds, otherwise `pc + 4`.  The register file and memory
are not touched (the source only reads `registers`). -/
def execute_b_type (op : String) (rs1 rs2 : Nat) (imm : Nat) (regs : Registers)
    (pc : Int) : Int :=
  let rs1_val := regs.values.getD rs1 0
  let rs2_val := regs.values.getD rs2 0
  let next_pc := pc + 4
  if op = "beq" then (if rs1_val = rs2_val then pc + imm else next_pc)
  else if op = "bne" then (if rs1_val ≠ rs2_val then pc + imm else next_pc)
  else if op = "blt" then (if rs1_val < rs2_val then pc + imm else next_pc)
  else next_pc

/-- Simulator.py `execute_j_type`: for `jal`, writes `pc + 4` into rd and
returns `pc + imm`; otherwise returns `pc + 4`. -/
def execute_j_type (op : String) (rd : Nat) (imm : Nat) (regs : Registers)
    (pc : Int) : Registers × Int :=
  if op = "jal" then (write_register regs rd (pc + 4), pc + imm)
  else (regs, pc + 4)

example : decode_instruction 0x80000093 = .Itype "addi" 1 0 4294965248 := by decide
example : decode_instruction 0x7FF00093 = .Itype "addi" 1 0 2047 := by decide
example : decode_instruction 0 = .unknown 0 := by decide

/-- Assembler.py `FUNCT3` table, each 3-bit binary string read as its
numeric value. -/
def FUNCT3 (op : String) : Nat :=
  match op with
  | "add" => 0 | "sub" => 0 | "sll" => 1 | "slt" => 2 | "sltu" => 3
  | "xor" => 4 | "srl" => 5 | "sra" => 5 | "or" => 6 | "and" => 7
  | "addi" => 0 | "slti" => 2 | "sltiu" => 3 | "xori" => 4 | "ori" => 6
  | "andi" => 7 | "slli" => 1 | "srli" => 5 | "srai" => 5 | "lb" => 0
  | "lh" => 1 | "lw" => 2 | "lbu" => 4 | "lhu" => 5 | "jalr" => 0
  | "sb" => 0 | "sh" => 1 | "sw" => 2 | "beq" => 0 | "bne" => 1
  | "blt" => 4 | "bge" => 5 | "bltu" => 6 | "bgeu" => 7
  | _ => 0

/-- Assembler.py `FUNCT7` table, each 7-bit binary string read as its
numeric value (a key outside the table raises KeyError in Python and is
never queried by `encode_instruction`). -/
def FUNCT7 (op : String) : Nat :=
  match op with
  | "sub" => 32 | "sra" => 32 | "srai" => 32
  | _ => 0

/-- Assembler.py `encode_r_type`: the 32-bit word denoted by the binary
string `funct7 ++ rs2 ++ rs1 ++ funct3 ++ rd ++ 0110011` (field widths
7, 5, 5, 3, 5, 7; register numbers are below 32 whenever they come from
`get_register_number`, so each field fits its width). -/
def encode_r_type (opcode : String) (rd rs1 rs2 : Nat) : Nat :=
  FUNCT7 opcode * 2 ^ 25 + rs2 * 2 ^ 20 + rs1 * 2 ^ 15
    + FUNCT3 opcode * 2 ^ 12 + rd * 2 ^ 7 + 51

/-- Assembler.py `encode_i_type`: the immediate field is
`funct7 ++ (imm & 0x1F)` for the shift opcodes and `imm & 0xFFF`
otherwise; the opcode field is `0000011` for loads, `1100111` for jalr
and `0010011` otherwise.  For a Python integer, `imm & 0xFFF` is
`imm % 2 ^ 12` (non-negative even for negative `imm`). -/
def encode_i_type (opcode : String) (rd rs1 : Nat) (imm : Int) : Nat :=
  let imm_field :=
    if opcode = "slli" ∨ opcode = "srli" ∨ opcode = "srai" then
      FUNCT7 opcode * 2 ^ 5 + (imm % 32).toNat
    else (imm % 4096).toNat
  let op :=
    if opcode = "lb" ∨ opcode = "lh" ∨ opcode = "lw" ∨ opcode = "lbu" ∨ opcode = "lhu" then 3
    else if opcode = "jalr" then 103
    else 19
  imm_field * 2 ^ 20 + rs1 * 2 ^ 15 + FUNCT3 opcode * 2 ^ 12 + rd * 2 ^ 7 + op

/-- Assembler.py `encode_s_type`: after `imm &= 0xFFF`, the word is
`(imm >> 5) ++ rs2 ++ rs1 ++ funct3 ++ (imm & 0x1F) ++ 0100011`. -/
def encode_s_type (opcode : String) (rs2 rs1 : Nat) (imm : Int) : Nat :=
  let immN := (imm % 4096).toNat
  immN / 32 * 2 ^ 25 + rs2 * 2 ^ 20 + rs1 * 2 ^ 15
    + FUNCT3 opcode * 2 ^ 12 + immN % 32 * 2 ^ 7 + 35

/-- Assembler.py `encode_b_type`: after `imm &= 0x1FFE` (keep bits 1-12,
clear bit 0: on a Python integer this is `imm % 2 ^ 13` rounded down to
even), the word is
`imm[12] ++ imm[10:5] ++ rs2 ++ rs1 ++ funct3 ++ imm[4:1] ++ imm[11] ++ 1100011`. -/
def encode_b_type (opcode : String) (rs1 rs2 : Nat) (imm : Int) : Nat :=
  let immN := (imm % 8192).toNat / 2 * 2
  immN / 2 ^ 12 % 2 * 2 ^ 31 + immN / 2 ^ 5 % 64 * 2 ^ 25 + rs2 * 2 ^ 20
    + rs1 * 2 ^ 15 + FUNCT3 opcode * 2 ^ 12 + immN / 2 % 16 * 2 ^ 8
    + immN / 2 ^ 11 % 2 * 2 ^ 7 + 99

set_option linter.unusedVariables false in
/-- Assembler.py `encode_j_type`: after `imm &= 0x1FFFFE` (keep bits
1-20, clear bit 0), the word is
`imm[20] ++ imm[10:1] ++ imm[11] ++ imm[19:12] ++ rd ++ 1101111`
(the opcode argument is unused in the source as well, which hard-codes
the jal opcode). -/
def encode_j_type (opcode : String) (rd : Nat) (imm : Int) : Nat :=
  let immN := (imm % 2097152).toNat / 2 * 2
  immN / 2 ^ 20 % 2 * 2 ^ 31 + immN / 2 % 1024 * 2 ^ 21 + immN / 2 ^ 11 % 2 * 2 ^ 20
    + immN / 2 ^ 12 % 256 * 2 ^ 12 + rd * 2 ^ 7 + 111

/-- Source line of `assemble_file` after stripping and dropping empty
lines: `label` is the text before the first colon when the line contains
one, and `hasInstr` records whether instruction text remains once a
`label:` prefix is stripped (always true when there is no label). -/
structure SrcLine where
  label : Option String
  hasInstr : Bool
  deriving DecidableEq

/-- Label-table update `labels[name] = addr` of assemble_file pass 1:
a later binding of the same name overrides an earlier one, as in a
Python dictionary. -/
def updateTable (t : String → Option Int) (name : String) (addr : Int) :
    String → Option Int :=
  fun s => if s = name then some addr else t s

/-- Assemble_file pass 1 (assembler.py lines 159-162) starting at
address `a`: every non-empty line advances the address by 4, and a line
containing a colon records its label at the address of that line. -/
def pass1Aux : List SrcLine → Int → (String → Option Int) → (String → Option Int)
  | [], _, t => t
  | l :: ls, a, t =>
      pass1Aux ls (a + 4)
        (match l.label with
         | some name => updateTable t name a
         | none => t)

/-- Label table produced by pass 1 from address 0, complete before any
encoding is attempted. -/
def pass1Labels (lines : List SrcLine) : String → Option Int :=
  pass1Aux lines 0 (fun _ => none)

/-- Whether pass 2 (assembler.py lines 164-168) skips a line: a line
whose text is empty after the `label:` prefix is stripped is `continue`d
without advancing the pass-2 address. -/
def skipped (l : SrcLine) : Bool := l.label.isSome && !l.hasInstr

/-- Pass-2 address assignment starting at `a`: one entry per source
line, `none` for a skipped line; a non-skipped line takes the current
address, which then advances by 4. -/
def pass2AddrAux : List SrcLine → Int → List (Option Int)
  | [], _ => []
  | l :: ls, a =>
      if skipped l then none :: pass2AddrAux ls a
      else some a :: pass2AddrAux ls (a + 4)

/-- Pass-2 addresses from address 0. -/
def pass2Addrs (lines : List SrcLine) : List (Option Int) :=
  pass2AddrAux lines 0

/-- Immediate that `encode_instruction` receives for a branch or jal on
line `i` whose operand names label `tgt` found in the table
(assembler.py lines 128 and 138): `labels[tgt] - current_address`, with
`current_address` the pass-2 address of line `i`.  The result is `none`
when line `i` has no pass-2 address or the label is absent (the absent
case falls back to `check_immediate_bounds` on the literal text). -/
def branchImm (lines : List SrcLine) (i : Nat) (tgt : String) : Option Int :=
  match (pass2Addrs lines)[i]?, pass1Labels lines tgt with
  | some (some a), some la => some (la - a)
  | _, _ => none

example : decode_instruction (encode_b_type "beq" 1 2 8) = .Btype "beq" 1 2 8 := by decide
example : decode_instruction (encode_r_type "sub" 3 4 5) = .Rtype "sub" 3 4 5 := by decide
example : decode_instruction (encode_i_type "addi" 1 0 (-2048)) = .Itype "addi" 1 0 4294965248 := by
  decide

/-- C1: the claimed round trip decode(encode(op, operands)) = (op, operands)
fails at the boundary immediate of the 12-bit I-type field: encoding
addi rd=1 rs1=0 imm=-2048 and decoding the word back returns the
immediate 4294965248 (0xFFFFF800), a large positive value, because the
decoder step `imm |= 0xFFFFF000` never produces a negative Python integer;
4294965248 is not the original operand -2048. -/
theorem c1_roundtrip_boundary_failure :
    decode_instruction (encode_i_type "addi" 1 0 (-2048)) = .Itype "addi" 1 0 4294965248 ∧
    (4294965248 : Int) ≠ (-2048 : Int) := by
  decide

/-- C2: decoding the I-type word 0x80000093, whose 12-bit immediate
field holds 0x800, yields the immediate 4294965248 (0xFFFFF800), not the
sign-extended -2048 the claim requires; the 0x7FF half of the claim does
hold (word 0x7FF00093 decodes to immediate 2047). -/
theorem c2_sign_extension_bug :
    decode_instruction 0x80000093 = .Itype "addi" 1 0 4294965248 ∧
    decode_instruction 0x7FF00093 = .Itype "addi" 1 0 2047 ∧
    (4294965248 : Int) ≠ (-2048 : Int) := by
  decide

/-- C3: a taken beq with positive encoded displacement 8 does set the
next pc to pc + 8 (100 to 108) and a not-taken branch sets pc + 4, but a
taken beq whose encoded displacement is -4 decodes to the immediate
4294967292 (0xFFFFFFFC) and sets the next pc to 100 + 4294967292 =
4294967392, far above the branch address instead of below it as the
claim requires. -/
theorem c3_negative_branch_bug :
    decode_instruction (encode_b_type "beq" 1 3 8) = .Btype "beq" 1 3 8 ∧
    execute_b_type "beq" 1 3 8 init_registers 100 = 108 ∧
    execute_b_type "bne" 1 3 8 init_registers 100 = 104 ∧
    decode_instruction (encode_b_type "beq" 1 3 (-4)) = .Btype "beq" 1 3 4294967292 ∧
    execute_b_type "beq" 1 3 4294967292 init_registers 100 = 4294967392 ∧
    ¬ execute_b_type "beq" 1 3 4294967292 init_registers 100 < 100 := by
  decide

/-- C5: writing register 0 leaves the whole register file unchanged for
every prior state and every value, and reading register 0 yields 0 after
any sequence of register writes starting from the initial state (which
covers every executed instruction, since the executors touch the
register file only through write_register). -/
theorem c5_register_zero :
    (∀ (regs : Registers) (v : Int), write_register regs 0 v = regs) ∧
    (∀ ws : List (Nat × Int),
      read_register (ws.foldl (fun r p => write_register r p.1 p.2) init_registers) 0 = 0) := by
  constructor
  · intro regs v
    simp [write_register]
  · have key : ∀ (ws : List (Nat × Int)) (r : Registers), r.values.getD 0 0 = 0 →
        (ws.foldl (fun r p => write_register r p.1 p.2) r).values.getD 0 0 = 0 := by
      intro ws
      induction ws with
      | nil => intro r h; exact h
      | cons p ps ih =>
        intro r h
        refine ih _ ?_
        simp only [write_register]
        split
        next hc =>
          simp only [List.getD_eq_getElem?_getD]
          rw [List.getElem?_set_ne (by omega : p.1 ≠ 0)]
          simpa [List.getD_eq_getElem?_getD] using h
        next => exact h
    intro ws
    simpa [read_register] using key ws init_registers (by decide)

/-- C6: for every register file of the architectural shape and every
writable register, the value read back after a write is the written
value reduced to 32-bit two-complement range; in particular executing add on
register values 0x7FFFFFFF and 1 stores -2147483648 in the destination
register. -/
theorem c6_write_masking :
    (∀ (regs : Registers) (rd : Nat) (v : Int), regs.values.length = 32 →
      1 ≤ rd → rd < 32 →
      read_register (write_register regs rd v) rd = (v + 2 ^ 31) % 2 ^ 32 - 2 ^ 31) ∧
    read_register
      (execute_r_type "add" 3 1 2
        (write_register (write_register init_registers 1 2147483647) 2 1)) 3
      = -2147483648 := by
  constructor
  · intro regs rd v hlen h1 h2
    simp only [write_register, read_register, if_pos (And.intro h1 h2), if_pos h2]
    rw [List.getD_eq_getElem?_getD,
      List.getElem?_set_self (by omega : rd < regs.values.length)]
    simp only [Option.getD_some]
    split <;> omega
  · decide

/-- Witness for c6_write_masking at a concrete state and value. -/
theorem c6_write_masking_witness :
    read_register (write_register init_registers 1 4294967296) 1
      = (4294967296 + 2 ^ 31) % 2 ^ 32 - 2 ^ 31 :=
  c6_write_masking.1 init_registers 1 4294967296 (by decide) (by decide) (by decide)

/-- Reduction of execute_i_type at the jalr opcode, by computation. -/
theorem execute_i_type_jalr (rd rs1 : Nat) (imm : Nat) (regs : Registers)
    (memory : Memory) (pc : Int) :
    execute_i_type "jalr" rd rs1 imm regs memory pc =
      if regs.values.getD rs1 0 + imm - (regs.values.getD rs1 0 + imm) % 2 = pc
      then (regs, some (pc + 4))
      else (write_register regs rd (pc + 4),
        some (regs.values.getD rs1 0 + imm - (regs.values.getD rs1 0 + imm) % 2)) := rfl

/-- C7: for every state, pc and operands, jalr computes its target as
rs1 + imm with bit 0 cleared (the target is even, equal to twice the
floored half of rs1 + imm); when the target equals the current pc it
returns pc + 4 and writes no register, and otherwise it writes pc + 4
into rd through write_register (so the register-0 rule applies) and
returns the target as the next pc. -/
theorem c7_jalr (regs : Registers) (memory : Memory) (pc : Int) (rd rs1 : Nat) (imm : Nat) :
    execute_i_type "jalr" rd rs1 imm regs memory pc =
      (if regs.values.getD rs1 0 + imm - (regs.values.getD rs1 0 + imm) % 2 = pc then regs
       else write_register regs rd (pc + 4),
       some (if regs.values.getD rs1 0 + imm - (regs.values.getD rs1 0 + imm) % 2 = pc
         then pc + 4
         else regs.values.getD rs1 0 + imm - (regs.values.getD rs1 0 + imm) % 2)) ∧
    (regs.values.getD rs1 0 + imm - (regs.values.getD rs1 0 + imm) % 2) % 2 = 0 ∧
    regs.values.getD rs1 0 + imm - (regs.values.getD rs1 0 + imm) % 2
      = 2 * ((regs.values.getD rs1 0 + imm) / 2) := by
  refine ⟨?_, by omega, by omega⟩
  rw [execute_i_type_jalr]
  split_ifs with h
  · rfl
  · rfl

/-- C10: the branch and jump encoders clear bit 0 of the displacement
instead of rejecting odd values: for every odd immediate the produced
word equals the word for the immediate minus one (both encoders are
total functions, so no error is raised on the way). -/
theorem c10_odd_displacement (op : String) :
    (∀ (rs1 rs2 : Nat) (imm : Int), imm % 2 = 1 →
      encode_b_type op rs1 rs2 imm = encode_b_type op rs1 rs2 (imm - 1)) ∧
    (∀ (rd : Nat) (imm : Int), imm % 2 = 1 →
      encode_j_type op rd imm = encode_j_type op rd (imm - 1)) := by
  constructor
  · intro rs1 rs2 imm h
    simp only [encode_b_type]
    rw [show (imm % 8192).toNat / 2 = ((imm - 1) % 8192).toNat / 2 by omega]
  · intro rd imm h
    simp only [encode_j_type]
    rw [show (imm % 2097152).toNat / 2 = ((imm - 1) % 2097152).toNat / 2 by omega]

/-- Witness for c10_odd_displacement at the odd displacement 9. -/
theorem c10_odd_displacement_witness :
    encode_b_type "beq" 1 2 9 = encode_b_type "beq" 1 2 (9 - 1) ∧
    encode_j_type "jal" 1 9 = encode_j_type "jal" 1 (9 - 1) :=
  ⟨(c10_odd_displacement "beq").1 1 2 9 (by decide),
   (c10_odd_displacement "jal").2 1 9 (by decide)⟩

/-- Recognized (opcode, funct3, funct7) combinations: exactly the
dispatch table of decode_instruction (funct7 only disambiguates the
R-type opcode; jal ignores funct3). -/
def recognizedTriple (opcode funct3 funct7 : Nat) : Prop :=
  (opcode = 51 ∧ ((funct3 = 0 ∧ funct7 = 0) ∨ (funct3 = 0 ∧ funct7 = 32) ∨
    (funct3 = 5 ∧ funct7 = 0) ∨ (funct3 = 7 ∧ funct7 = 0) ∨
    (funct3 = 6 ∧ funct7 = 0) ∨ (funct3 = 2 ∧ funct7 = 0))) ∨
  (opcode = 19 ∧ funct3 = 0) ∨
  (opcode = 3 ∧ funct3 = 2) ∨
  (opcode = 35 ∧ funct3 = 2) ∨
  (opcode = 99 ∧ (funct3 = 0 ∨ funct3 = 1 ∨ funct3 = 4)) ∨
  opcode = 111 ∨
  (opcode = 103 ∧ funct3 = 0)

/-- C8: decoding is a total pure function of the input word (it is a
Lean function into Instr, so it always returns a value and has no
effects), and it returns the unknown variant carrying the raw word
exactly when the (opcode, funct3, funct7) combination of the word is outside
the recognized set. -/
theorem c8_decode_total (w : Nat) :
    decode_instruction w = .unknown w ↔
      ¬ recognizedTriple (opcode_of w) (funct3_of w) (funct7_of w) := by
  simp only [decode_instruction, recognizedTriple]
  split_ifs <;> simp_all

/-- Reading a byte after a byte write: the written byte at the written
address, otherwise the previous contents. -/
theorem read_after_write_byte (m : Memory) (a v x : Int) :
    read_byte_memory (write_byte_memory m a v) x =
      if x = a then v % 256 else read_byte_memory m x := by
  by_cases h : x = a
  · simp only [read_byte_memory, write_byte_memory, if_pos h]
    omega
  · simp only [read_byte_memory, write_byte_memory, if_neg h]

/-- Unrolling of the four-byte store loop of write_word_memory. -/
theorem write_word_memory_unroll (m : Memory) (a v : Int) :
    write_word_memory m a v =
      write_byte_memory (write_byte_memory (write_byte_memory (write_byte_memory
        m (a + 0) (v / 2 ^ (0 * 8) % 256)) (a + 1) (v / 2 ^ (1 * 8) % 256))
        (a + 2) (v / 2 ^ (2 * 8) % 256)) (a + 3) (v / 2 ^ (3 * 8) % 256) := rfl

/-- Reading any byte after a word store: one of the four stored bytes in
little-endian order inside the written range, the previous contents
outside it. -/
theorem read_after_write_word (m : Memory) (a v x : Int) :
    read_byte_memory (write_word_memory m a v) x =
      if x = a then v % 256
      else if x = a + 1 then v / 256 % 256
      else if x = a + 2 then v / 65536 % 256
      else if x = a + 3 then v / 16777216 % 256
      else read_byte_memory m x := by
  rw [write_word_memory_unroll, read_after_write_byte, read_after_write_byte,
    read_after_write_byte, read_after_write_byte]
  norm_num
  split_ifs <;> first | rfl | omega

/-- C9: storing 0x11223344 as a word at any address A of any memory and
reading back single bytes at A, A+1, A+2, A+3 yields 0x44, 0x33, 0x22,
0x11; the initial memory reads 0 everywhere, and a word store changes no
byte outside its four addresses, so an address never written still
reads 0. -/
theorem c9_little_endian :
    (∀ (m : Memory) (A : Int),
      read_byte_memory (write_word_memory m A 0x11223344) A = 0x44 ∧
      read_byte_memory (write_word_memory m A 0x11223344) (A + 1) = 0x33 ∧
      read_byte_memory (write_word_memory m A 0x11223344) (A + 2) = 0x22 ∧
      read_byte_memory (write_word_memory m A 0x11223344) (A + 3) = 0x11) ∧
    (∀ a : Int, read_byte_memory (init_memory 65536) a = 0) ∧
    (∀ (m : Memory) (A v a : Int), a ≠ A → a ≠ A + 1 → a ≠ A + 2 → a ≠ A + 3 →
      read_byte_memory (write_word_memory m A v) a = read_byte_memory m a) := by
  refine ⟨?_, ?_, ?_⟩
  · intro m A
    refine ⟨?_, ?_, ?_, ?_⟩ <;>
      rw [read_after_write_word] <;>
      split_ifs <;> omega
  · intro a
    rfl
  · intro m A v a h0 h1 h2 h3
    rw [read_after_write_word, if_neg h0, if_neg h1, if_neg h2, if_neg h3]

/-- Witness for c9_little_endian: the frame part at a concrete memory,
address and value. -/
theorem c9_little_endian_witness :
    read_byte_memory (write_word_memory (init_memory 65536) 0 7) 100
      = read_byte_memory (init_memory 65536) 100 :=
  c9_little_endian.2.2 (init_memory 65536) 0 7 100 (by decide) (by decide)
    (by decide) (by decide)

/-- Pass 1 leaves the table unchanged at a label that occurs on no
line. -/
theorem pass1Aux_of_not_mem (L : String) :
    ∀ (ls : List SrcLine) (a : Int) (t : String → Option Int),
      (∀ l ∈ ls, l.label ≠ some L) → pass1Aux ls a t L = t L := by
  intro ls
  induction ls with
  | nil => intro a t _; rfl
  | cons l ls ih =>
    intro a t h
    rcases hl : l.label with _ | name
    · simp only [pass1Aux, hl]
      exact ih _ _ (fun x hx => h x (List.mem_cons_of_mem _ hx))
    · have hne : ¬ L = name := by
        intro e
        exact h l (List.mem_cons_self _ _) (by rw [hl, e])
      simp only [pass1Aux, hl]
      rw [ih _ _ (fun x hx => h x (List.mem_cons_of_mem _ hx))]
      simp [updateTable, hne]

/-- Pass 1 records a label whose last occurrence is on line j at the
address `a + 4 * j`: every line, label-only lines included, advances the
pass-1 address by 4. -/
theorem pass1Aux_of_last (L : String) :
    ∀ (ls : List SrcLine) (j : Nat) (lj : SrcLine) (a : Int) (t : String → Option Int),
      ls[j]? = some lj → lj.label = some L →
      (∀ k lk, j < k → ls[k]? = some lk → lk.label ≠ some L) →
      pass1Aux ls a t L = some (a + 4 * j) := by
  intro ls
  induction ls with
  | nil => intro j lj a t hj _ _; simp at hj
  | cons l ls ih =>
    intro j lj a t hj hlab hlast
    cases j with
    | zero =>
      have hl : l = lj := by simpa using hj
      subst hl
      have hnotmem : ∀ x ∈ ls, x.label ≠ some L := by
        intro x hx
        obtain ⟨k, hk⟩ := List.getElem?_of_mem hx
        exact hlast (k + 1) x (Nat.succ_pos k) (by simpa using hk)
      simp only [pass1Aux, hlab]
      rw [pass1Aux_of_not_mem L ls _ _ hnotmem]
      simp [updateTable]
    | succ j =>
      have hj' : ls[j]? = some lj := by simpa using hj
      have hlast' : ∀ k lk, j < k → ls[k]? = some lk → lk.label ≠ some L := by
        intro k lk hk hget
        exact hlast (k + 1) lk (by omega) (by simpa using hget)
      rcases hl : l.label with _ | name <;>
        · simp only [pass1Aux, hl]
          rw [ih j lj (a + 4) _ hj' hlab hlast']
          simp only [Option.some.injEq]
          push_cast
          ring

/-- A non-skipped line receives a pass-2 address, and that address is at
most `a + 4 * i` (skipped lines do not advance the pass-2 counter). -/
theorem pass2AddrAux_get :
    ∀ (ls : List SrcLine) (a : Int) (i : Nat) (li : SrcLine),
      ls[i]? = some li → skipped li = false →
      ∃ x, (pass2AddrAux ls a)[i]? = some (some x) ∧ x ≤ a + 4 * i := by
  intro ls
  induction ls with
  | nil => intro a i li h _; simp at h
  | cons l ls ih =>
    intro a i li hget hskip
    cases i with
    | zero =>
      have hl : l = li := by simpa using hget
      subst hl
      refine ⟨a, ?_, by omega⟩
      simp [pass2AddrAux, hskip]
    | succ i =>
      have hget' : ls[i]? = some li := by simpa using hget
      by_cases hs : skipped l
      · obtain ⟨x, hx, hb⟩ := ih a i li hget' hskip
        exact ⟨x, by simpa [pass2AddrAux, hs] using hx, by push_cast at hb ⊢; omega⟩
      · obtain ⟨x, hx, hb⟩ := ih (a + 4) i li hget' hskip
        exact ⟨x, by simpa [pass2AddrAux, hs] using hx, by push_cast at hb ⊢; omega⟩

/-- When every line carries an instruction, pass 2 assigns line i
exactly the address `a + 4 * i`, the same address pass 1 uses. -/
theorem pass2AddrAux_all_instr :
    ∀ (ls : List SrcLine) (a : Int) (i : Nat) (li : SrcLine),
      (∀ l ∈ ls, l.hasInstr = true) → ls[i]? = some li →
      (pass2AddrAux ls a)[i]? = some (some (a + 4 * i)) := by
  intro ls
  induction ls with
  | nil => intro a i li _ h; simp at h
  | cons l ls ih =>
    intro a i li hall hget
    have hs : skipped l = false := by
      simp [skipped, hall l (List.mem_cons_self _ _)]
    cases i with
    | zero =>
      simp [pass2AddrAux, hs]
    | succ i =>
      have hget' : ls[i]? = some li := by simpa using hget
      have hall' : ∀ x ∈ ls, x.hasInstr = true :=
        fun x hx => hall x (List.mem_cons_of_mem _ hx)
      have h2 := ih (a + 4) i li hall' hget'
      have h3 : (pass2AddrAux (l :: ls) a)[i + 1]? = (pass2AddrAux ls (a + 4))[i]? := by
        simp [pass2AddrAux, hs]
      rw [h3, h2]
      simp only [Option.some.injEq]
      push_cast
      ring

/-- C4 (amended): pass 1 records the label of line j (its last
occurrence) at address 4 * j, advancing by 4 for every line before any
encoding happens; the branch on line i naming that label is encoded with
immediate label_address minus the pass-2 address of line i; a forward
reference (i < j) always yields a positive displacement; and when no
line is label-only (so pass-2 addresses coincide with pass-1 addresses)
the displacement equals 4 * j - 4 * i, hence is negative for every
backward reference (j < i). -/
theorem c4_two_pass_displacement (lines : List SrcLine) (i j : Nat) (li lj : SrcLine)
    (L : String)
    (hi : lines[i]? = some li) (hins : li.hasInstr = true)
    (hj : lines[j]? = some lj) (hlab : lj.label = some L)
    (hlast : ∀ k lk, j < k → lines[k]? = some lk → lk.label ≠ some L) :
    pass1Labels lines L = some (4 * j) ∧
    ∃ d, branchImm lines i L = some d ∧
      (i < j → 0 < d) ∧
      ((∀ l ∈ lines, l.hasInstr = true) → d = 4 * j - 4 * i) ∧
      ((∀ l ∈ lines, l.hasInstr = true) → j < i → d < 0) := by
  have h1 : pass1Labels lines L = some (4 * j) := by
    have := pass1Aux_of_last L lines j lj 0 (fun _ => none) hj hlab hlast
    simpa [pass1Labels] using this
  have hskip : skipped li = false := by simp [skipped, hins]
  obtain ⟨x, hx, hxle⟩ := pass2AddrAux_get lines 0 i li hi hskip
  have hx' : (pass2Addrs lines)[i]? = some (some x) := hx
  refine ⟨h1, 4 * j - x, ?_, ?_, ?_, ?_⟩
  · simp [branchImm, hx', h1]
  · intro hij
    omega
  · intro hall
    have hxx := pass2AddrAux_all_instr lines 0 i li hall hi
    rw [hx] at hxx
    simp only [Option.some.injEq] at hxx
    omega
  · intro hall hji
    have hxx := pass2AddrAux_all_instr lines 0 i li hall hi
    rw [hx] at hxx
    simp only [Option.some.injEq] at hxx
    omega

/-- Two-line program whose first line is the label-only line `L:` and
whose second line is an instruction referring back to L. -/
def c4Program : List SrcLine := [⟨some "L", false⟩, ⟨none, true⟩]

/-- C4 counterexample: in c4Program the label L is defined on line 0 and
referenced from the branch on line 1, a backward reference, yet the
encoded displacement is 0 rather than negative: pass 1 charges the
label-only line an address (+4 per line, so L maps to 0 and the branch
line to 4) while pass 2 skips it without advancing, encoding the branch
at address 0. -/
theorem c4_backward_not_negative :
    c4Program[0]? = some ⟨some "L", false⟩ ∧
    c4Program[1]? = some ⟨none, true⟩ ∧
    pass1Labels c4Program "L" = some 0 ∧
    branchImm c4Program 1 "L" = some 0 ∧
    ¬ (0 : Int) < 0 := by
  decide

/-- Two-line program with the label L on the same line as the first
instruction and a branch on the second line referring back to it. -/
def c4WitnessProgram : List SrcLine := [⟨some "L", true⟩, ⟨none, true⟩]

/-- Witness for c4_two_pass_displacement: in c4WitnessProgram, where no
line is label-only, the backward reference from line 1 to the label on
line 0 is encoded with displacement 4 * 0 - 4 * 1 = -4. -/
theorem c4_two_pass_displacement_witness :
    branchImm c4WitnessProgram 1 "L" = some (4 * 0 - 4 * 1) := by
  obtain ⟨h1, d, hd, hpos, heq, hneg⟩ :=
    c4_two_pass_displacement c4WitnessProgram 1 0 ⟨none, true⟩ ⟨some "L", true⟩ "L"
      (by decide) (by decide) (by decide) (by decide)
      (by
        intro k lk hk hget
        rcases k with _ | _ | k
        · omega
        · have hlk : (⟨none, true⟩ : SrcLine) = lk := by
            simpa [c4WitnessProgram] using hget
          simp [← hlk]
        · simp [c4WitnessProgram, List.getElem?_cons_succ, List.getElem?_nil] at hget)
  rw [hd, heq (by decide)]
  norm_num
